import Mathlib

/-
Shallow embedding of `cargo-dead` (src/main.rs): a tool that detects
declared dependencies never referenced by a package's own sources and
optionally strips them from the manifest.  Pure fragments of the Rust
code become Lean functions; fallible steps return `Except String`.
-/

set_option autoImplicit false

namespace CargoDead

/-- Kind of a declared dependency, as supplied by `cargo_metadata`
(`DependencyKind::Normal` / `Development` / `Build`). -/
inductive DependencyKind where
  | normal
  | development
  | build
deriving DecidableEq, Repr

/-- A declared dependency, projected to the two fields the tool reads. -/
structure Dependency where
  name : String
  kind : DependencyKind
deriving DecidableEq, Repr

/-- `get_dependency_names`: the names of the declared dependencies of one
kind, in declaration order (the Rust code collects them into a `HashSet`;
presence is what matters, the iteration order is modelled separately). -/
def get_dependency_names (dependencies : List Dependency) (kind : DependencyKind) : List String :=
  (dependencies.filter (fun dep => dep.kind == kind)).map (fun dep => dep.name)

mutual
/-- A node of a parsed source file: either a path node carrying its
segment identifiers (`foo::bar::Baz` carries `["foo","bar","Baz"]`)
together with the nested nodes the visitor recurses into, or any other
node with its children.  This abstracts the `syn` tree as the
`Visit`-based `CrateVisitor` sees it. -/
inductive SynNode where
  | pathNode : List String → SynForest → SynNode
  | otherNode : SynForest → SynNode

/-- A list of sibling nodes of a parsed source file. -/
inductive SynForest where
  | nil : SynForest
  | cons : SynNode → SynForest → SynForest
end

mutual
/-- The `CrateVisitor` at one node: `visit_path` inserts the first
segment of every path node it reaches, then keeps recursing into the
nested nodes (`syn::visit::visit_path`). -/
def nodeFirstSegments : SynNode → List String
  | SynNode.pathNode segs children => segs.head?.toList ++ forestFirstSegments children
  | SynNode.otherNode children => forestFirstSegments children

/-- The `CrateVisitor` over a list of sibling nodes. -/
def forestFirstSegments : SynForest → List String
  | SynForest.nil => []
  | SynForest.cons n f => nodeFirstSegments n ++ forestFirstSegments f
end

mutual
/-- Every path occurrence (its full segment list) in a node's subtree. -/
def nodePaths : SynNode → List (List String)
  | SynNode.pathNode segs children => segs :: forestPaths children
  | SynNode.otherNode children => forestPaths children

/-- Every path occurrence in a forest. -/
def forestPaths : SynForest → List (List String)
  | SynForest.nil => []
  | SynForest.cons n f => nodePaths n ++ forestPaths f
end

/-- One directory entry met by the `WalkDir` loop of `scan_rust_files`:
an `Err` entry (dropped by `filter_map(Result::ok)`), a file whose
extension is not `rs` (skipped by the extension test), or an `.rs` file
whose read either fails with an error, or yields text that parses to a
forest (`some`) or fails `syn::parse_file` (`none`). -/
inductive DirEntry where
  | entryError : DirEntry
  | nonRust : DirEntry
  | rustFile : Except String (Option SynForest) → DirEntry

/-- `scan_rust_files`: walk the entries in order; entry errors and
non-`.rs` files are skipped; a failed read propagates
(`fs::read_to_string(path)?`); a file that fails to parse is skipped
(`if let Ok(syntax) = syn::parse_file(..)`); a parsed file contributes
the visitor's output. -/
def scan_rust_files : List DirEntry → Except String (List String)
  | [] => Except.ok []
  | DirEntry.entryError :: rest => scan_rust_files rest
  | DirEntry.nonRust :: rest => scan_rust_files rest
  | DirEntry.rustFile (Except.error e) :: _ => Except.error e
  | DirEntry.rustFile (Except.ok none) :: rest => scan_rust_files rest
  | DirEntry.rustFile (Except.ok (some f)) :: rest =>
      match scan_rust_files rest with
      | Except.error e => Except.error e
      | Except.ok ids => Except.ok (forestFirstSegments f ++ ids)

/-- Entries of one manifest table: dependency name mapped to its
specification, kept opaque as its printed form. -/
abbrev TableEntries := List (String × String)

/-- A top-level item of the parsed `toml_edit` document: a standard
table (the only shape `Item::Table(..)` matches), or any other item
(plain value, inline table, array of tables, none), kept opaque. -/
inductive Item where
  | table : TableEntries → Item
  | value : String → Item
deriving DecidableEq, Repr

/-- The parsed manifest: top-level names mapped to their items, in
document order (`toml_edit::Document`, format-preserving). -/
abbrev Document := List (String × Item)

/-- `doc[name]`: the item under the first top-level entry called
`name`, if any (`toml_edit` indexing; the `Item::None` a mutable index
inserts for a missing name has no serialized form and is not modelled). -/
def lookupItem : Document → String → Option Item
  | [], _ => none
  | (m, it) :: rest, n => if m = n then some it else lookupItem rest n

/-- Whether `if let Item::Table(ref mut tbl) = doc[n]` matches. -/
def isTable (doc : Document) (n : String) : Bool :=
  match lookupItem doc n with
  | some (Item.table _) => true
  | _ => false

/-- `tbl.remove(dep)` on one item: drop the entry keyed `key` from a
table; leave any other item unchanged. -/
def stripKey (key : String) : Item → Item
  | Item.table es => Item.table (es.filter (fun e => !(e.1 == key)))
  | it => it

/-- Apply `f` to the item of the first top-level entry called `n`. -/
def updateFirst : Document → String → (Item → Item) → Document
  | [], _, _ => []
  | (m, it) :: rest, n, f =>
      if m = n then (m, f it) :: rest else (m, it) :: updateFirst rest n f

/-- Remove the key `dep` from the top-level table `tbl` of the document. -/
def removeKeyFirst (doc : Document) (tbl dep : String) : Document :=
  updateFirst doc tbl (stripKey dep)

/-- Remove each key in `ks`, in order, from the top-level table `tbl`. -/
def removeKeysFirst (tbl : String) : Document → List String → Document
  | doc, [] => doc
  | doc, k :: ks => removeKeysFirst tbl (removeKeyFirst doc tbl k) ks

/-- The three `--only-*` flags of `FilterOptions`. -/
structure FilterOptions where
  only_dev : Bool
  only_build : Bool
  only_regular : Bool
deriving DecidableEq, Repr

/-- `check_normal` in `analyze_package`:
`filter.only_regular || (!filter.only_dev && !filter.only_build)`. -/
def check_normal (filter : FilterOptions) : Bool :=
  filter.only_regular || (!filter.only_dev && !filter.only_build)

/-- `check_dev` in `analyze_package`:
`filter.only_dev || (!filter.only_regular && !filter.only_build)`. -/
def check_dev (filter : FilterOptions) : Bool :=
  filter.only_dev || (!filter.only_regular && !filter.only_build)

/-- `check_build` in `analyze_package`:
`filter.only_build || (!filter.only_regular && !filter.only_dev)`. -/
def check_build (filter : FilterOptions) : Bool :=
  filter.only_build || (!filter.only_regular && !filter.only_dev)

/-- One `for dep in &declared_..` loop of `analyze_package`, over the
`HashSet` iteration order `enum`: report every declared name missing
from `used`; in fix mode, when `doc[tbl]` is a table, call
`tbl.remove(dep)` and set `changed = true`.  Returns the reported
names in order, the resulting document and the `changed` flag. -/
def processKind (fix : Bool) (tbl : String) (used : List String) :
    List String → Document → Bool → List String × Document × Bool
  | [], doc, changed => ([], doc, changed)
  | dep :: rest, doc, changed =>
      if used.contains dep then processKind fix tbl used rest doc changed
      else if fix && isTable doc tbl then
        (dep :: (processKind fix tbl used rest (removeKeyFirst doc tbl dep) true).1,
         (processKind fix tbl used rest (removeKeyFirst doc tbl dep) true).2)
      else
        (dep :: (processKind fix tbl used rest doc changed).1,
         (processKind fix tbl used rest doc changed).2)

/-- The per-package inputs `analyze_package` consumes: the declared
dependency list from the metadata provider, the iteration order each
`HashSet` of declared names happens to produce (Rust's `HashSet`
iteration order is arbitrary; it is a parameter of the model), the
directory walks of `src/` and `tests/` (`none` when the directory does
not exist), the `build.rs` read-and-parse outcome (`none` when absent),
and the manifest read-and-parse outcome. -/
structure PackageInputs where
  dependencies : List Dependency
  enumNormal : List String
  enumDev : List String
  enumBuild : List String
  srcEntries : Option (List DirEntry)
  testsEntries : Option (List DirEntry)
  buildRs : Option (Except String (Option SynForest))
  manifest : Except String Document

/-- Scan of one optional directory: a missing directory is skipped
without error (`if dir_path.exists()`). -/
def scanOpt : Option (List DirEntry) → Except String (List String)
  | some entries => scan_rust_files entries
  | none => Except.ok []

/-- The `build.rs` block of `analyze_package`: absent file contributes
nothing; a failed read propagates (`fs::read_to_string(&build_rs)?`); a
parse failure is skipped; a parsed file contributes the visitor's
output. -/
def buildIdsOf : Option (Except String (Option SynForest)) → Except String (List String)
  | none => Except.ok []
  | some (Except.error e) => Except.error e
  | some (Except.ok none) => Except.ok []
  | some (Except.ok (some f)) => Except.ok (forestFirstSegments f)

/-- The used-identifier aggregation of `analyze_package`: scan `src/`,
then `tests/`, then `build.rs`, each extending `used_crates`. -/
def computeUsed (pkg : PackageInputs) : Except String (List String) :=
  match scanOpt pkg.srcEntries with
  | Except.error e => Except.error e
  | Except.ok srcIds =>
      match scanOpt pkg.testsEntries with
      | Except.error e => Except.error e
      | Except.ok testIds =>
          match buildIdsOf pkg.buildRs with
          | Except.error e => Except.error e
          | Except.ok buildIds => Except.ok (srcIds ++ testIds ++ buildIds)

/-- The observable outcome of `analyze_package` on one package: the
reported unused names per kind in emission order, the document the run
ends with, and whether `fs::write` was invoked on the manifest. -/
structure AnalyzeResult where
  unusedNormal : List String
  unusedDev : List String
  unusedBuild : List String
  finalDoc : Document
  written : Bool
deriving DecidableEq, Repr

/-- The declared names missing from the used set, in iteration order. -/
def unusedOf (used enum : List String) : List String :=
  enum.filter (fun d => !(used.contains d))

/-- One kind's block of `analyze_package`: run the report-and-fix loop
only when the kind's `check_..` flag is up, else leave everything as
is. -/
def stepKind (active fix : Bool) (tbl : String) (used enum : List String)
    (st : Document × Bool) : List String × Document × Bool :=
  if active then processKind fix tbl used enum st.1 st.2 else ([], st.1, st.2)

/-- Conditional key removal, the document effect of one kind's block. -/
def stepDoc (c : Bool) (tbl : String) (keys : List String) (doc : Document) : Document :=
  if c then removeKeysFirst tbl doc keys else doc

/-- The reconciliation phase of `analyze_package`, after the used set
was aggregated and the manifest parsed: process the three kinds in
order, threading the document and the `changed` flag, and write iff fix
mode is on and `changed` was raised. -/
def reconcile (fix : Bool) (filter : FilterOptions) (pkg : PackageInputs)
    (used : List String) (doc : Document) : AnalyzeResult :=
  let r1 := stepKind (check_normal filter) fix "dependencies" used pkg.enumNormal (doc, false)
  let r2 := stepKind (check_dev filter) fix "dev-dependencies" used pkg.enumDev r1.2
  let r3 := stepKind (check_build filter) fix "build-dependencies" used pkg.enumBuild r2.2
  { unusedNormal := r1.1, unusedDev := r2.1, unusedBuild := r3.1,
    finalDoc := r3.2.1, written := fix && r3.2.2 }

/-- `analyze_package`: aggregate the used set (scans may abort), parse
the manifest (may abort), then reconcile. -/
def analyze_package (pkg : PackageInputs) (fix : Bool) (filter : FilterOptions) :
    Except String AnalyzeResult :=
  match computeUsed pkg with
  | Except.error e => Except.error e
  | Except.ok used =>
      match pkg.manifest with
      | Except.error e => Except.error e
      | Except.ok doc => Except.ok (reconcile fix filter pkg used doc)

/-- The `main` loop over workspace member packages, in metadata order:
each package is analyzed with `analyze_package(..)?`, so the first
error aborts the whole run. -/
def run_workspace (fix : Bool) (filter : FilterOptions) :
    List PackageInputs → Except String (List AnalyzeResult)
  | [] => Except.ok []
  | pkg :: rest =>
      match analyze_package pkg fix filter with
      | Except.error e => Except.error e
      | Except.ok r =>
          match run_workspace fix filter rest with
          | Except.error e => Except.error e
          | Except.ok rs => Except.ok (r :: rs)

/-- The three dependency tables of a manifest. -/
def depTables : List String := ["dependencies", "dev-dependencies", "build-dependencies"]

/-- The computed unused list responsible for one dependency table. -/
def unusedFor (r : AnalyzeResult) (n : String) : List String :=
  if n = "dependencies" then r.unusedNormal
  else if n = "dev-dependencies" then r.unusedDev
  else if n = "build-dependencies" then r.unusedBuild
  else []

/-- A path with leading segment `x` occurs in some successfully parsed
file that the package's analysis scans: under `src/`, under `tests/`,
or in `build.rs`. -/
def appearsInPackage (pkg : PackageInputs) (x : String) : Prop :=
  (∃ entries f segs, pkg.srcEntries = some entries ∧
      DirEntry.rustFile (Except.ok (some f)) ∈ entries ∧
      segs ∈ forestPaths f ∧ segs.head? = some x) ∨
  (∃ entries f segs, pkg.testsEntries = some entries ∧
      DirEntry.rustFile (Except.ok (some f)) ∈ entries ∧
      segs ∈ forestPaths f ∧ segs.head? = some x) ∨
  (∃ f segs, pkg.buildRs = some (Except.ok (some f)) ∧
      segs ∈ forestPaths f ∧ segs.head? = some x)

/-- Fixture: a parsed file whose only path is `serde::Value`. -/
def forestW : SynForest :=
  SynForest.cons (SynNode.pathNode ["serde", "Value"] SynForest.nil) SynForest.nil

/-- Fixture: a manifest with one table per kind and a metadata entry. -/
def docW : Document :=
  [("package", Item.value "name = example"),
   ("dependencies", Item.table [("serde", "1"), ("tokio", "1")]),
   ("dev-dependencies", Item.table [("tempy", "1")]),
   ("build-dependencies", Item.table [("cc", "1")])]

/-- Fixture: a package whose sources reference only `serde`. -/
def pkgW : PackageInputs :=
  { dependencies := [⟨"serde", DependencyKind.normal⟩, ⟨"tokio", DependencyKind.normal⟩,
      ⟨"tempy", DependencyKind.development⟩, ⟨"cc", DependencyKind.build⟩]
    enumNormal := ["serde", "tokio"]
    enumDev := ["tempy"]
    enumBuild := ["cc"]
    srcEntries := some [DirEntry.rustFile (Except.ok (some forestW))]
    testsEntries := none
    buildRs := none
    manifest := Except.ok docW }

/-- Fixture: the used set of `pkgW`. -/
def usedW : List String := ["serde"]

/-- Fixture: no filter flag set. -/
def filterAll : FilterOptions := ⟨false, false, false⟩

/-- Fixture: only the development kind selected. -/
def filterDev : FilterOptions := ⟨true, false, false⟩

/-- Fixture: the result of checking `pkgW`. -/
def rWcheck : AnalyzeResult :=
  { unusedNormal := ["tokio"], unusedDev := ["tempy"], unusedBuild := ["cc"],
    finalDoc := docW, written := false }

/-- Fixture: the result of fixing `pkgW` with no filter. -/
def rWfix : AnalyzeResult :=
  { unusedNormal := ["tokio"], unusedDev := ["tempy"], unusedBuild := ["cc"],
    finalDoc := [("package", Item.value "name = example"),
      ("dependencies", Item.table [("serde", "1")]),
      ("dev-dependencies", Item.table []),
      ("build-dependencies", Item.table [])],
    written := true }

/-- Fixture: the result of fixing `pkgW` with only the development kind. -/
def rWdev : AnalyzeResult :=
  { unusedNormal := [], unusedDev := ["tempy"], unusedBuild := [],
    finalDoc := [("package", Item.value "name = example"),
      ("dependencies", Item.table [("serde", "1"), ("tokio", "1")]),
      ("dev-dependencies", Item.table []),
      ("build-dependencies", Item.table [("cc", "1")])],
    written := true }

/-- Fixture: a package whose `src/` holds one unreadable file. -/
def pkgC3 : PackageInputs :=
  { dependencies := [], enumNormal := [], enumDev := [], enumBuild := [],
    srcEntries := some [DirEntry.rustFile (Except.error "permission denied")],
    testsEntries := none, buildRs := none, manifest := Except.ok [] }

/-- Fixture: a manifest whose dependencies table has no keys. -/
def docC4 : Document := [("dependencies", Item.table [])]

/-- Fixture: a package declaring an unused dependency whose key is
absent from the manifest's dependencies table. -/
def pkgC4 : PackageInputs :=
  { dependencies := [⟨"foo", DependencyKind.normal⟩],
    enumNormal := ["foo"], enumDev := [], enumBuild := [],
    srcEntries := none, testsEntries := none, buildRs := none,
    manifest := Except.ok docC4 }

/-- Fixture: two unused regular dependencies whose `HashSet` happens to
iterate in the order opposite to the declaration order. -/
def pkgC5 : PackageInputs :=
  { dependencies := [⟨"alpha", DependencyKind.normal⟩, ⟨"beta", DependencyKind.normal⟩],
    enumNormal := ["beta", "alpha"], enumDev := [], enumBuild := [],
    srcEntries := none, testsEntries := none, buildRs := none,
    manifest := Except.ok [] }

/-- Fixture: a package whose manifest fails to read or parse. -/
def pkgC9 : PackageInputs :=
  { dependencies := [], enumNormal := [], enumDev := [], enumBuild := [],
    srcEntries := none, testsEntries := none, buildRs := none,
    manifest := Except.error "bad toml" }

/-- Fixture: the result of fixing `pkgC4`. -/
def rC4 : AnalyzeResult :=
  { unusedNormal := ["foo"], unusedDev := [], unusedBuild := [],
    finalDoc := docC4, written := true }

/-- Fixture: the result of checking `pkgC5`. -/
def rC5 : AnalyzeResult :=
  { unusedNormal := ["beta", "alpha"], unusedDev := [], unusedBuild := [],
    finalDoc := [], written := false }

/-- Fixture: the scanned prefix used by the C3 witness. -/
def preW : List DirEntry := [DirEntry.rustFile (Except.ok (some forestW))]

/-- Fixture: the scanned suffix used by the C3 witness. -/
def postW : List DirEntry := [DirEntry.nonRust]

mutual
/-- The visitor records the leading segment of every path in a node. -/
theorem nodeFirstSegments_sound (n : SynNode) (segs : List String) (x : String)
    (hmem : segs ∈ nodePaths n) (hhead : segs.head? = some x) :
    x ∈ nodeFirstSegments n := by
  cases n with
  | pathNode s children =>
      simp only [nodePaths, List.mem_cons] at hmem
      rcases hmem with h | h
      · subst h
        simp [nodeFirstSegments, hhead]
      · exact List.mem_append_right _ (forestFirstSegments_sound children segs x h hhead)
  | otherNode children =>
      simp only [nodePaths] at hmem
      exact forestFirstSegments_sound children segs x hmem hhead

/-- The visitor records the leading segment of every path in a forest. -/
theorem forestFirstSegments_sound (f : SynForest) (segs : List String) (x : String)
    (hmem : segs ∈ forestPaths f) (hhead : segs.head? = some x) :
    x ∈ forestFirstSegments f := by
  cases f with
  | nil => simp [forestPaths] at hmem
  | cons n rest =>
      simp only [forestPaths, List.mem_append] at hmem
      rcases hmem with h | h
      · exact List.mem_append_left _ (nodeFirstSegments_sound n segs x h hhead)
      · exact List.mem_append_right _ (forestFirstSegments_sound rest segs x h hhead)
end

/-- Splitting a scan at an append: the suffix is scanned only when the
prefix succeeds, and its identifiers follow the prefix's. -/
theorem scan_rust_files_append (pre post : List DirEntry) :
    scan_rust_files (pre ++ post) =
      match scan_rust_files pre with
      | Except.error e => Except.error e
      | Except.ok ids =>
          match scan_rust_files post with
          | Except.error e => Except.error e
          | Except.ok ids' => Except.ok (ids ++ ids') := by
  induction pre with
  | nil =>
      simp only [List.nil_append, scan_rust_files]
      cases scan_rust_files post with
      | error e => rfl
      | ok ids => simp
  | cons entry rest ih =>
      cases entry with
      | entryError => simpa [scan_rust_files] using ih
      | nonRust => simpa [scan_rust_files] using ih
      | rustFile r =>
          cases r with
          | error e => simp [scan_rust_files]
          | ok p =>
              cases p with
              | none => simpa [scan_rust_files] using ih
              | some f =>
                  simp only [List.cons_append, scan_rust_files]
                  rw [List.append_eq, ih]
                  cases scan_rust_files rest with
                  | error e => rfl
                  | ok ids =>
                      cases scan_rust_files post with
                      | error e => rfl
                      | ok ids' => simp

/-- Every identifier the visitor collects from a parsed file among the
scanned entries ends up in a successful scan's result. -/
theorem scan_rust_files_sound (entries : List DirEntry) (ids : List String)
    (f : SynForest) (x : String)
    (hok : scan_rust_files entries = Except.ok ids)
    (hf : DirEntry.rustFile (Except.ok (some f)) ∈ entries)
    (hx : x ∈ forestFirstSegments f) :
    x ∈ ids := by
  induction entries generalizing ids with
  | nil => simp at hf
  | cons entry rest ih =>
      rcases List.mem_cons.mp hf with h | h
      · subst h
        simp only [scan_rust_files] at hok
        cases hrest : scan_rust_files rest with
        | error e => rw [hrest] at hok; exact absurd hok (by simp)
        | ok ids' =>
            rw [hrest] at hok
            simp only [Except.ok.injEq] at hok
            subst hok
            exact List.mem_append_left _ hx
      · cases entry with
        | entryError => exact ih ids (by simpa [scan_rust_files] using hok) h
        | nonRust => exact ih ids (by simpa [scan_rust_files] using hok) h
        | rustFile r =>
            cases r with
            | error e => simp [scan_rust_files] at hok
            | ok p =>
                cases p with
                | none => exact ih ids (by simpa [scan_rust_files] using hok) h
                | some f' =>
                    simp only [scan_rust_files] at hok
                    cases hrest : scan_rust_files rest with
                    | error e => rw [hrest] at hok; exact absurd hok (by simp)
                    | ok ids' =>
                        rw [hrest] at hok
                        simp only [Except.ok.injEq] at hok
                        subst hok
                        exact List.mem_append_right _ (ih ids' hrest h)

/-- Updating one name leaves the lookup of any other name unchanged. -/
theorem lookupItem_updateFirst_ne (doc : Document) (n m : String) (f : Item → Item)
    (hne : m ≠ n) : lookupItem (updateFirst doc n f) m = lookupItem doc m := by
  induction doc with
  | nil => rfl
  | cons p rest ih =>
      obtain ⟨a, it⟩ := p
      by_cases h : a = n
      · subst h
        simp only [updateFirst, if_pos rfl, lookupItem]
        have : ¬ a = m := fun hc => hne (hc ▸ rfl)
        simp [this]
      · simp only [updateFirst, if_neg h, lookupItem]
        by_cases h' : a = m
        · simp [h']
        · simp [h', ih]

/-- Updating a present name rewrites exactly its item. -/
theorem lookupItem_updateFirst_eq (doc : Document) (n : String) (f : Item → Item)
    (it : Item) (h : lookupItem doc n = some it) :
    lookupItem (updateFirst doc n f) n = some (f it) := by
  induction doc with
  | nil => simp [lookupItem] at h
  | cons p rest ih =>
      obtain ⟨a, b⟩ := p
      by_cases ha : a = n
      · subst ha
        simp only [lookupItem, if_pos rfl] at h
        cases h
        simp [updateFirst, lookupItem]
      · simp only [lookupItem, if_neg ha] at h
        simp [updateFirst, if_neg ha, lookupItem, ha, ih h]

/-- Updating an absent name is the identity. -/
theorem updateFirst_absent (doc : Document) (n : String) (f : Item → Item)
    (h : lookupItem doc n = none) : updateFirst doc n f = doc := by
  induction doc with
  | nil => rfl
  | cons p rest ih =>
      obtain ⟨a, b⟩ := p
      by_cases ha : a = n
      · subst ha; simp [lookupItem] at h
      · simp only [lookupItem, if_neg ha] at h
        simp [updateFirst, if_neg ha, ih h]

/-- Updating with a function that fixes the present item is the identity. -/
theorem updateFirst_of_fixed (doc : Document) (n : String) (f : Item → Item)
    (it : Item) (h : lookupItem doc n = some it) (hf : f it = it) :
    updateFirst doc n f = doc := by
  induction doc with
  | nil => rfl
  | cons p rest ih =>
      obtain ⟨a, b⟩ := p
      by_cases ha : a = n
      · subst ha
        simp only [lookupItem, if_pos rfl] at h
        cases h
        simp [updateFirst, hf]
      · simp only [lookupItem, if_neg ha] at h
        simp [updateFirst, if_neg ha, ih h]

/-- Updating an item never changes the document's top-level names. -/
theorem updateFirst_map_fst (doc : Document) (n : String) (f : Item → Item) :
    (updateFirst doc n f).map Prod.fst = doc.map Prod.fst := by
  induction doc with
  | nil => rfl
  | cons p rest ih =>
      obtain ⟨a, b⟩ := p
      by_cases ha : a = n
      · simp [updateFirst, ha]
      · simp [updateFirst, if_neg ha, ih]

/-- A single key removal preserves whether any name holds a table. -/
theorem isTable_removeKeyFirst (doc : Document) (tbl dep m : String) :
    isTable (removeKeyFirst doc tbl dep) m = isTable doc m := by
  by_cases hm : m = tbl
  · subst hm
    cases h : lookupItem doc m with
    | none => simp [isTable, removeKeyFirst, updateFirst_absent doc m _ h, h]
    | some it =>
        have := lookupItem_updateFirst_eq doc m (stripKey dep) it h
        cases it with
        | table es => simp [isTable, removeKeyFirst, this, h, stripKey]
        | value s => simp [isTable, removeKeyFirst, this, h, stripKey]
  · simp [isTable, removeKeyFirst, lookupItem_updateFirst_ne doc tbl m _ hm]

/-- Key removals from one table leave the lookup of other names alone. -/
theorem lookupItem_removeKeysFirst_ne (ks : List String) (doc : Document)
    (tbl m : String) (hne : m ≠ tbl) :
    lookupItem (removeKeysFirst tbl doc ks) m = lookupItem doc m := by
  induction ks generalizing doc with
  | nil => rfl
  | cons k ks ih =>
      simp only [removeKeysFirst]
      rw [ih, removeKeyFirst, lookupItem_updateFirst_ne doc tbl m _ hne]

/-- Key removals from a table-shaped entry filter exactly those keys. -/
theorem lookupItem_removeKeysFirst_table (ks : List String) (doc : Document)
    (tbl : String) (es : TableEntries)
    (h : lookupItem doc tbl = some (Item.table es)) :
    lookupItem (removeKeysFirst tbl doc ks) tbl =
      some (Item.table (es.filter (fun e => !(ks.contains e.1)))) := by
  induction ks generalizing doc es with
  | nil => simpa [removeKeysFirst] using h
  | cons k ks ih =>
      simp only [removeKeysFirst]
      have hstep := lookupItem_updateFirst_eq doc tbl (stripKey k) _ h
      rw [ih (removeKeyFirst doc tbl k) (es.filter (fun e => !(e.1 == k))) hstep]
      congr 2
      rw [List.filter_filter]
      apply List.filter_congr
      intro e _
      by_cases hk : e.1 = k <;> by_cases hks : e.1 ∈ ks <;> simp [hk, hks]

/-- Key removals from a non-table entry are the identity. -/
theorem removeKeysFirst_nonTable (ks : List String) (doc : Document)
    (tbl : String) (h : isTable doc tbl = false) :
    removeKeysFirst tbl doc ks = doc := by
  induction ks generalizing doc with
  | nil => rfl
  | cons k ks ih =>
      simp only [removeKeysFirst]
      have hdoc : removeKeyFirst doc tbl k = doc := by
        cases hl : lookupItem doc tbl with
        | none => exact updateFirst_absent doc tbl _ hl
        | some it =>
            cases it with
            | table es => simp [isTable, hl] at h
            | value s => exact updateFirst_of_fixed doc tbl _ _ hl rfl
      rw [hdoc]
      exact ih doc h

/-- Key removals never change the document's top-level names. -/
theorem removeKeysFirst_map_fst (ks : List String) (doc : Document) (tbl : String) :
    (removeKeysFirst tbl doc ks).map Prod.fst = doc.map Prod.fst := by
  induction ks generalizing doc with
  | nil => rfl
  | cons k ks ih =>
      simp only [removeKeysFirst]
      rw [ih, removeKeyFirst, updateFirst_map_fst]

/-- Closed form of the loop: the reported names are the declared names
missing from `used` in iteration order; in fix mode with a table-shaped
`doc[tbl]` exactly those keys are removed; `changed` is raised exactly
when such a removal call happened (whether or not the key existed). -/
theorem processKind_eq (fix : Bool) (tbl : String) (used : List String)
    (enum : List String) (doc : Document) (changed : Bool) :
    processKind fix tbl used enum doc changed =
      (enum.filter (fun d => !(used.contains d)),
       (if fix && isTable doc tbl then
          removeKeysFirst tbl doc (enum.filter (fun d => !(used.contains d)))
        else doc),
       (changed ||
         (fix && isTable doc tbl &&
           !(enum.filter (fun d => !(used.contains d))).isEmpty))) := by
  induction enum generalizing doc changed with
  | nil => simp [processKind, removeKeysFirst]
  | cons dep rest ih =>
      by_cases hu : used.contains dep = true
      · have hmem : dep ∈ used := by simpa using hu
        rw [show processKind fix tbl used (dep :: rest) doc changed =
              processKind fix tbl used rest doc changed by
            simp [processKind, hmem], ih]
        simp [List.filter_cons, hmem]
      · have hnmem : dep ∉ used := by simpa using hu
        by_cases hft : (fix && isTable doc tbl) = true
        · rw [show processKind fix tbl used (dep :: rest) doc changed =
                (dep :: (processKind fix tbl used rest (removeKeyFirst doc tbl dep) true).1,
                 (processKind fix tbl used rest (removeKeyFirst doc tbl dep) true).2) by
              simp [processKind, hnmem, hft], ih]
          have hinv : isTable (removeKeyFirst doc tbl dep) tbl = isTable doc tbl :=
            isTable_removeKeyFirst doc tbl dep tbl
          obtain ⟨hF, hT⟩ := Bool.and_eq_true_iff.mp hft
          simp only [List.filter_cons, hinv, hF, hT, Bool.and_self, Bool.true_and,
            if_pos rfl]
          have hu' : used.contains dep = false := by simpa using hu
          refine congrArg₂ Prod.mk ?_ (congrArg₂ Prod.mk ?_ ?_)
          · simp [hnmem]
          · simp only [if_true, hu', Bool.not_false, if_pos rfl]
            rfl
          · simp [hnmem]
        · have hft' : (fix && isTable doc tbl) = false := by simpa using hft
          rw [show processKind fix tbl used (dep :: rest) doc changed =
                (dep :: (processKind fix tbl used rest doc changed).1,
                 (processKind fix tbl used rest doc changed).2) by
              simp [processKind, hnmem, hft'], ih]
          simp [List.filter_cons, hnmem, hft']

/-- Key removals preserve whether any name holds a table. -/
theorem isTable_removeKeysFirst (ks : List String) (doc : Document) (tbl m : String) :
    isTable (removeKeysFirst tbl doc ks) m = isTable doc m := by
  induction ks generalizing doc with
  | nil => rfl
  | cons k ks ih =>
      rw [removeKeysFirst, ih, isTable_removeKeyFirst]

/-- A conditional removal step preserves whether any name holds a table. -/
theorem isTable_stepDoc (c : Bool) (tbl : String) (ks : List String)
    (doc : Document) (m : String) :
    isTable (stepDoc c tbl ks doc) m = isTable doc m := by
  cases c <;> simp [stepDoc, isTable_removeKeysFirst]

/-- Closed form of one kind's block. -/
theorem stepKind_eq (active fix : Bool) (tbl : String) (used enum : List String)
    (doc : Document) (changed : Bool) :
    stepKind active fix tbl used enum (doc, changed) =
      (if active then unusedOf used enum else [],
       stepDoc (active && (fix && isTable doc tbl)) tbl (unusedOf used enum) doc,
       changed || (active && (fix && isTable doc tbl) && !((unusedOf used enum).isEmpty))) := by
  cases active with
  | false => simp [stepKind, stepDoc]
  | true => simp [stepKind, processKind_eq, stepDoc, unusedOf, Bool.and_assoc]

/-- Closed form of the reconciliation phase, with every table test
referred to the original document. -/
theorem reconcile_eq (fix : Bool) (filter : FilterOptions) (pkg : PackageInputs)
    (used : List String) (doc : Document) :
    reconcile fix filter pkg used doc =
      { unusedNormal := if check_normal filter then unusedOf used pkg.enumNormal else []
        unusedDev := if check_dev filter then unusedOf used pkg.enumDev else []
        unusedBuild := if check_build filter then unusedOf used pkg.enumBuild else []
        finalDoc :=
          stepDoc (check_build filter && (fix && isTable doc "build-dependencies"))
            "build-dependencies" (unusedOf used pkg.enumBuild)
            (stepDoc (check_dev filter && (fix && isTable doc "dev-dependencies"))
              "dev-dependencies" (unusedOf used pkg.enumDev)
              (stepDoc (check_normal filter && (fix && isTable doc "dependencies"))
                "dependencies" (unusedOf used pkg.enumNormal) doc))
        written := fix &&
          ((check_normal filter && (fix && isTable doc "dependencies") &&
              !((unusedOf used pkg.enumNormal).isEmpty)) ||
            (check_dev filter && (fix && isTable doc "dev-dependencies") &&
              !((unusedOf used pkg.enumDev).isEmpty)) ||
            (check_build filter && (fix && isTable doc "build-dependencies") &&
              !((unusedOf used pkg.enumBuild).isEmpty))) } := by
  simp only [reconcile, stepKind_eq, isTable_stepDoc, Bool.false_or]

/-- A successful analysis decomposes into its three phases. -/
theorem analyze_package_ok_elim (pkg : PackageInputs) (fix : Bool)
    (filter : FilterOptions) (r : AnalyzeResult)
    (h : analyze_package pkg fix filter = Except.ok r) :
    ∃ used doc, computeUsed pkg = Except.ok used ∧ pkg.manifest = Except.ok doc ∧
      r = reconcile fix filter pkg used doc := by
  unfold analyze_package at h
  cases hu : computeUsed pkg with
  | error e => rw [hu] at h; exact absurd h (by simp)
  | ok used =>
      rw [hu] at h
      cases hm : pkg.manifest with
      | error e => rw [hm] at h; exact absurd h (by simp)
      | ok doc =>
          rw [hm] at h
          simp only [Except.ok.injEq] at h
          exact ⟨used, doc, rfl, rfl, h.symm⟩

/-- Every identifier of the aggregated used set that a source position
guarantees: membership through the `src/` scan. -/
theorem computeUsed_mem_src (pkg : PackageInputs) (used : List String)
    (entries : List DirEntry) (f : SynForest) (x : String)
    (h : computeUsed pkg = Except.ok used)
    (hsrc : pkg.srcEntries = some entries)
    (hf : DirEntry.rustFile (Except.ok (some f)) ∈ entries)
    (hx : x ∈ forestFirstSegments f) : x ∈ used := by
  unfold computeUsed at h
  cases hs : scanOpt pkg.srcEntries with
  | error e => rw [hs] at h; exact absurd h (by simp)
  | ok srcIds =>
      rw [hs] at h
      cases ht : scanOpt pkg.testsEntries with
      | error e => rw [ht] at h; exact absurd h (by simp)
      | ok testIds =>
          rw [ht] at h
          cases hb : buildIdsOf pkg.buildRs with
          | error e => rw [hb] at h; exact absurd h (by simp)
          | ok buildIds =>
              rw [hb] at h
              simp only [Except.ok.injEq] at h
              subst h
              have : x ∈ srcIds := by
                rw [hsrc] at hs
                exact scan_rust_files_sound entries srcIds f x hs hf hx
              exact List.mem_append_left _ (List.mem_append_left _ this)

/-- Membership in the used set through the `tests/` scan. -/
theorem computeUsed_mem_tests (pkg : PackageInputs) (used : List String)
    (entries : List DirEntry) (f : SynForest) (x : String)
    (h : computeUsed pkg = Except.ok used)
    (htests : pkg.testsEntries = some entries)
    (hf : DirEntry.rustFile (Except.ok (some f)) ∈ entries)
    (hx : x ∈ forestFirstSegments f) : x ∈ used := by
  unfold computeUsed at h
  cases hs : scanOpt pkg.srcEntries with
  | error e => rw [hs] at h; exact absurd h (by simp)
  | ok srcIds =>
      rw [hs] at h
      cases ht : scanOpt pkg.testsEntries with
      | error e => rw [ht] at h; exact absurd h (by simp)
      | ok testIds =>
          rw [ht] at h
          cases hb : buildIdsOf pkg.buildRs with
          | error e => rw [hb] at h; exact absurd h (by simp)
          | ok buildIds =>
              rw [hb] at h
              simp only [Except.ok.injEq] at h
              subst h
              have : x ∈ testIds := by
                rw [htests] at ht
                exact scan_rust_files_sound entries testIds f x ht hf hx
              exact List.mem_append_left _ (List.mem_append_right _ this)

/-- Membership in the used set through `build.rs`. -/
theorem computeUsed_mem_build (pkg : PackageInputs) (used : List String)
    (f : SynForest) (x : String)
    (h : computeUsed pkg = Except.ok used)
    (hb' : pkg.buildRs = some (Except.ok (some f)))
    (hx : x ∈ forestFirstSegments f) : x ∈ used := by
  unfold computeUsed at h
  cases hs : scanOpt pkg.srcEntries with
  | error e => rw [hs] at h; exact absurd h (by simp)
  | ok srcIds =>
      rw [hs] at h
      cases ht : scanOpt pkg.testsEntries with
      | error e => rw [ht] at h; exact absurd h (by simp)
      | ok testIds =>
          rw [ht] at h
          cases hb : buildIdsOf pkg.buildRs with
          | error e => rw [hb] at h; exact absurd h (by simp)
          | ok buildIds =>
              rw [hb] at h
              simp only [Except.ok.injEq] at h
              subst h
              have : x ∈ buildIds := by
                rw [hb'] at hb
                simp only [buildIdsOf, Except.ok.injEq] at hb
                exact hb ▸ hx
              exact List.mem_append_right _ this

/-- Membership in the unused list of one kind. -/
theorem mem_unusedOf (used enum : List String) (x : String) :
    x ∈ unusedOf used enum ↔ x ∈ enum ∧ x ∉ used := by
  simp [unusedOf]

/-- A conditional removal step keeps the top-level names. -/
theorem stepDoc_map_fst (c : Bool) (tbl : String) (ks : List String) (doc : Document) :
    (stepDoc c tbl ks doc).map Prod.fst = doc.map Prod.fst := by
  cases c <;> simp [stepDoc, removeKeysFirst_map_fst]

/-- A conditional removal step keeps the lookup of every other name. -/
theorem lookup_stepDoc_ne (c : Bool) (tbl : String) (ks : List String)
    (doc : Document) (m : String) (h : m ≠ tbl) :
    lookupItem (stepDoc c tbl ks doc) m = lookupItem doc m := by
  cases c <;> simp [stepDoc, lookupItem_removeKeysFirst_ne _ _ _ _ h]

/-- A conditional removal step on a table-shaped entry filters its keys
when the condition holds and keeps them otherwise. -/
theorem lookup_stepDoc_table (c : Bool) (tbl : String) (ks : List String)
    (doc : Document) (es : TableEntries)
    (h : lookupItem doc tbl = some (Item.table es)) :
    lookupItem (stepDoc c tbl ks doc) tbl =
      some (Item.table (if c then es.filter (fun e => !(ks.contains e.1)) else es)) := by
  cases c with
  | false => simp [stepDoc, h]
  | true => simp [stepDoc, lookupItem_removeKeysFirst_table ks doc tbl es h]

/-- A conditional removal step on a non-table entry is the identity. -/
theorem stepDoc_nonTable (c : Bool) (tbl : String) (ks : List String)
    (doc : Document) (h : isTable doc tbl = false) :
    stepDoc c tbl ks doc = doc := by
  cases c <;> simp [stepDoc, removeKeysFirst_nonTable _ _ _ h]

/-- A removal step with a false condition is the identity. -/
theorem stepDoc_false (tbl : String) (ks : List String) (doc : Document) :
    stepDoc false tbl ks doc = doc := rfl

/-- A removal step whose removal list is forced empty by a dead flag is
the identity. -/
theorem stepDoc_id_of_flag (c : Bool) (tbl : String) (keys : List String)
    (doc : Document) (h : (c && !(keys.isEmpty)) = false) :
    stepDoc c tbl keys doc = doc := by
  cases c with
  | false => simp [stepDoc]
  | true =>
      simp only [Bool.true_and, Bool.not_eq_false'] at h
      have hk : keys = [] := by simpa using h
      subst hk
      simp [stepDoc, removeKeysFirst]

/-- The reported unused names of the regular kind. -/
theorem reconcile_unusedNormal (fix : Bool) (filter : FilterOptions) (pkg : PackageInputs)
    (used : List String) (doc : Document) :
    (reconcile fix filter pkg used doc).unusedNormal =
      if check_normal filter then unusedOf used pkg.enumNormal else [] := by
  rw [reconcile_eq]

/-- The reported unused names of the development kind. -/
theorem reconcile_unusedDev (fix : Bool) (filter : FilterOptions) (pkg : PackageInputs)
    (used : List String) (doc : Document) :
    (reconcile fix filter pkg used doc).unusedDev =
      if check_dev filter then unusedOf used pkg.enumDev else [] := by
  rw [reconcile_eq]

/-- The reported unused names of the build kind. -/
theorem reconcile_unusedBuild (fix : Bool) (filter : FilterOptions) (pkg : PackageInputs)
    (used : List String) (doc : Document) :
    (reconcile fix filter pkg used doc).unusedBuild =
      if check_build filter then unusedOf used pkg.enumBuild else [] := by
  rw [reconcile_eq]

/-- The document the analysis ends with: three conditional removal
steps, one per kind. -/
theorem reconcile_finalDoc (fix : Bool) (filter : FilterOptions) (pkg : PackageInputs)
    (used : List String) (doc : Document) :
    (reconcile fix filter pkg used doc).finalDoc =
      stepDoc (check_build filter && (fix && isTable doc "build-dependencies"))
        "build-dependencies" (unusedOf used pkg.enumBuild)
        (stepDoc (check_dev filter && (fix && isTable doc "dev-dependencies"))
          "dev-dependencies" (unusedOf used pkg.enumDev)
          (stepDoc (check_normal filter && (fix && isTable doc "dependencies"))
            "dependencies" (unusedOf used pkg.enumNormal) doc)) := by
  rw [reconcile_eq]

/-- Whether `fs::write` runs: fix mode with at least one removal call. -/
theorem reconcile_written (fix : Bool) (filter : FilterOptions) (pkg : PackageInputs)
    (used : List String) (doc : Document) :
    (reconcile fix filter pkg used doc).written = (fix &&
      ((check_normal filter && (fix && isTable doc "dependencies") &&
          !((unusedOf used pkg.enumNormal).isEmpty)) ||
        (check_dev filter && (fix && isTable doc "dev-dependencies") &&
          !((unusedOf used pkg.enumDev).isEmpty)) ||
        (check_build filter && (fix && isTable doc "build-dependencies") &&
          !((unusedOf used pkg.enumBuild).isEmpty)))) := by
  rw [reconcile_eq]

/-- A used identifier never appears in a kind's report list. -/
theorem not_mem_unused_ite (c : Bool) (used enum : List String) (x : String)
    (hx : x ∈ used) : x ∉ (if c = true then unusedOf used enum else []) := by
  cases c with
  | false => simp
  | true =>
      simp only [if_pos rfl]
      intro hmem
      exact ((mem_unusedOf used enum x).mp hmem).2 hx

/-- C1.  Soundness of used-set extraction and conservatism of unused
detection: an identifier occurring as the leading segment of any path
anywhere in any successfully parsed scanned file is in the package's
used-identifier set, and is consequently never reported as unused under
any mode, filter, or declared kind. -/
theorem dead_C1_soundness (pkg : PackageInputs) (x : String)
    (happ : appearsInPackage pkg x) :
    (∀ used, computeUsed pkg = Except.ok used → x ∈ used) ∧
    (∀ fix filter r, analyze_package pkg fix filter = Except.ok r →
      x ∉ r.unusedNormal ∧ x ∉ r.unusedDev ∧ x ∉ r.unusedBuild) := by
  have hused : ∀ used, computeUsed pkg = Except.ok used → x ∈ used := by
    intro used hu
    rcases happ with ⟨entries, f, segs, hs, hf, hp, hh⟩ |
      ⟨entries, f, segs, hs, hf, hp, hh⟩ | ⟨f, segs, hs, hp, hh⟩
    · exact computeUsed_mem_src pkg used entries f x hu hs hf
        (forestFirstSegments_sound f segs x hp hh)
    · exact computeUsed_mem_tests pkg used entries f x hu hs hf
        (forestFirstSegments_sound f segs x hp hh)
    · exact computeUsed_mem_build pkg used f x hu hs
        (forestFirstSegments_sound f segs x hp hh)
  refine ⟨hused, ?_⟩
  intro fix filter r hr
  obtain ⟨used, doc, hu, hm, hrec⟩ := analyze_package_ok_elim pkg fix filter r hr
  have hx : x ∈ used := hused used hu
  subst hrec
  refine ⟨?_, ?_, ?_⟩
  · rw [reconcile_unusedNormal]
    exact not_mem_unused_ite _ _ _ _ hx
  · rw [reconcile_unusedDev]
    exact not_mem_unused_ite _ _ _ _ hx
  · rw [reconcile_unusedBuild]
    exact not_mem_unused_ite _ _ _ _ hx

/-- C2.  For each active kind the reported unused set is exactly the
declared names of that kind minus the used-identifier set, by exact
string equality with no normalization.  The enumeration hypotheses say
each kind's `HashSet` iterates some permutation of the distinct
declared names of that kind. -/
theorem dead_C2_exact_difference (pkg : PackageInputs) (fix : Bool)
    (filter : FilterOptions) (used : List String) (r : AnalyzeResult)
    (hN : pkg.enumNormal.Perm
      (get_dependency_names pkg.dependencies DependencyKind.normal).dedup)
    (hD : pkg.enumDev.Perm
      (get_dependency_names pkg.dependencies DependencyKind.development).dedup)
    (hB : pkg.enumBuild.Perm
      (get_dependency_names pkg.dependencies DependencyKind.build).dedup)
    (hu : computeUsed pkg = Except.ok used)
    (h : analyze_package pkg fix filter = Except.ok r) :
    (check_normal filter = true → ∀ x, x ∈ r.unusedNormal ↔
      (x ∈ get_dependency_names pkg.dependencies DependencyKind.normal ∧ x ∉ used)) ∧
    (check_dev filter = true → ∀ x, x ∈ r.unusedDev ↔
      (x ∈ get_dependency_names pkg.dependencies DependencyKind.development ∧ x ∉ used)) ∧
    (check_build filter = true → ∀ x, x ∈ r.unusedBuild ↔
      (x ∈ get_dependency_names pkg.dependencies DependencyKind.build ∧ x ∉ used)) := by
  obtain ⟨used', doc, hu', hm, hrec⟩ := analyze_package_ok_elim pkg fix filter r h
  rw [hu] at hu'
  injection hu' with h_eq
  subst h_eq
  subst hrec
  refine ⟨?_, ?_, ?_⟩
  · intro hc x
    rw [reconcile_unusedNormal, if_pos hc, mem_unusedOf, hN.mem_iff, List.mem_dedup]
  · intro hc x
    rw [reconcile_unusedDev, if_pos hc, mem_unusedOf, hD.mem_iff, List.mem_dedup]
  · intro hc x
    rw [reconcile_unusedBuild, if_pos hc, mem_unusedOf, hB.mem_iff, List.mem_dedup]

/-- C5.  Claimed: the unused names of each active kind are reported in
original declaration order.  What the code does: it iterates the
`HashSet` of declared names, so each active kind reports exactly its
declared-but-unused names, one line each, in the set's arbitrary
iteration order, and the same lines are reported whether or not a fix
pass follows. -/
theorem dead_C5_amended (pkg : PackageInputs) (fix : Bool) (filter : FilterOptions)
    (used : List String) (r : AnalyzeResult)
    (hu : computeUsed pkg = Except.ok used)
    (h : analyze_package pkg fix filter = Except.ok r) :
    (check_normal filter = true → r.unusedNormal = unusedOf used pkg.enumNormal) ∧
    (check_dev filter = true → r.unusedDev = unusedOf used pkg.enumDev) ∧
    (check_build filter = true → r.unusedBuild = unusedOf used pkg.enumBuild) ∧
    (∀ fix' r', analyze_package pkg fix' filter = Except.ok r' →
      r'.unusedNormal = r.unusedNormal ∧ r'.unusedDev = r.unusedDev ∧
        r'.unusedBuild = r.unusedBuild) := by
  obtain ⟨used', doc, hu', hm, hrec⟩ := analyze_package_ok_elim pkg fix filter r h
  rw [hu] at hu'
  injection hu' with h_eq
  subst h_eq
  subst hrec
  refine ⟨?_, ?_, ?_, ?_⟩
  · intro hc; rw [reconcile_unusedNormal, if_pos hc]
  · intro hc; rw [reconcile_unusedDev, if_pos hc]
  · intro hc; rw [reconcile_unusedBuild, if_pos hc]
  · intro fix' r' h'
    obtain ⟨used'', doc'', hu'', hm'', hrec''⟩ :=
      analyze_package_ok_elim pkg fix' filter r' h'
    rw [hu] at hu''
    injection hu'' with h_eq'
    subst h_eq'
    subst hrec''
    refine ⟨?_, ?_, ?_⟩
    · rw [reconcile_unusedNormal, reconcile_unusedNormal]
    · rw [reconcile_unusedDev, reconcile_unusedDev]
    · rw [reconcile_unusedBuild, reconcile_unusedBuild]

/-- C3.  Claimed: a source file under `src/` or `tests/` that cannot be
read, or that cannot be parsed, is skipped and never aborts the
package's analysis.  What the code does: a file that fails to parse, an
unreadable directory entry, and a non-`.rs` file are each skipped and
contribute nothing, but a file whose read fails aborts the scan with
that error (`fs::read_to_string(path)?` propagates). -/
theorem dead_C3_amended (pre post : List DirEntry) (e : String) (ids : List String) :
    (scan_rust_files (pre ++ DirEntry.rustFile (Except.ok none) :: post) =
      scan_rust_files (pre ++ post)) ∧
    (scan_rust_files (pre ++ DirEntry.entryError :: post) =
      scan_rust_files (pre ++ post)) ∧
    (scan_rust_files (pre ++ DirEntry.nonRust :: post) =
      scan_rust_files (pre ++ post)) ∧
    (scan_rust_files pre = Except.ok ids →
      scan_rust_files (pre ++ DirEntry.rustFile (Except.error e) :: post) =
        Except.error e) := by
  refine ⟨?_, ?_, ?_, ?_⟩
  · rw [scan_rust_files_append, scan_rust_files_append]
    rfl
  · rw [scan_rust_files_append, scan_rust_files_append]
    rfl
  · rw [scan_rust_files_append, scan_rust_files_append]
    rfl
  · intro h
    rw [scan_rust_files_append, h]
    rfl

/-- C4.  Claimed: in fix mode the manifest is written back only if at
least one entry was actually removed.  What the code does: the write
happens iff fix mode is on and some active kind has a reported unused
name while its table is present as a table-shaped item — `changed` is
raised by the removal call itself, whether or not the key existed in
the table; when no unused name is reported (or no table is
table-shaped) nothing is written and the document is unchanged. -/
theorem dead_C4_amended (pkg : PackageInputs) (fix : Bool) (filter : FilterOptions)
    (doc : Document) (r : AnalyzeResult)
    (hm : pkg.manifest = Except.ok doc)
    (h : analyze_package pkg fix filter = Except.ok r) :
    (r.written = (fix &&
      ((isTable doc "dependencies" && !(r.unusedNormal.isEmpty)) ||
        (isTable doc "dev-dependencies" && !(r.unusedDev.isEmpty)) ||
        (isTable doc "build-dependencies" && !(r.unusedBuild.isEmpty))))) ∧
    (r.written = false → r.finalDoc = doc) := by
  obtain ⟨used, doc', hu, hm', hrec⟩ := analyze_package_ok_elim pkg fix filter r h
  rw [hm] at hm'
  injection hm' with h_eq
  subst h_eq
  subst hrec
  constructor
  · rw [reconcile_written, reconcile_unusedNormal, reconcile_unusedDev,
      reconcile_unusedBuild]
    cases fix <;>
      cases hcN : check_normal filter <;>
      cases hcD : check_dev filter <;>
      cases hcB : check_build filter <;>
      simp
  · rw [reconcile_written, reconcile_finalDoc]
    intro hw
    cases fix with
    | false => simp [stepDoc]
    | true =>
        simp only [Bool.true_and] at hw ⊢
        obtain ⟨h12, h3⟩ := Bool.or_eq_false_iff.mp hw
        obtain ⟨h1, h2⟩ := Bool.or_eq_false_iff.mp h12
        rw [stepDoc_id_of_flag _ _ _ _ h3, stepDoc_id_of_flag _ _ _ _ h2,
          stepDoc_id_of_flag _ _ _ _ h1]

/-- C6.  Kind isolation: under a single-kind filter, each inactive kind
reports no unused names and its manifest table entry is left exactly as
it was, in check and in fix mode alike. -/
theorem dead_C6_kind_isolation (pkg : PackageInputs) (fix : Bool)
    (filter : FilterOptions) (doc : Document) (r : AnalyzeResult)
    (_hsingle : filter = ⟨true, false, false⟩ ∨ filter = ⟨false, true, false⟩ ∨
      filter = ⟨false, false, true⟩)
    (hm : pkg.manifest = Except.ok doc)
    (h : analyze_package pkg fix filter = Except.ok r) :
    (check_normal filter = false → r.unusedNormal = [] ∧
      lookupItem r.finalDoc "dependencies" = lookupItem doc "dependencies") ∧
    (check_dev filter = false → r.unusedDev = [] ∧
      lookupItem r.finalDoc "dev-dependencies" = lookupItem doc "dev-dependencies") ∧
    (check_build filter = false → r.unusedBuild = [] ∧
      lookupItem r.finalDoc "build-dependencies" = lookupItem doc "build-dependencies") := by
  obtain ⟨used, doc', hu, hm', hrec⟩ := analyze_package_ok_elim pkg fix filter r h
  rw [hm] at hm'
  injection hm' with h_eq
  subst h_eq
  subst hrec
  refine ⟨fun hc => ⟨?_, ?_⟩, fun hc => ⟨?_, ?_⟩, fun hc => ⟨?_, ?_⟩⟩
  · rw [reconcile_unusedNormal, if_neg (by simp [hc])]
  · rw [reconcile_finalDoc,
      lookup_stepDoc_ne _ _ _ _ _ (by decide : ("dependencies" : String) ≠ "build-dependencies"),
      lookup_stepDoc_ne _ _ _ _ _ (by decide : ("dependencies" : String) ≠ "dev-dependencies"),
      show (check_normal filter && (fix && isTable doc "dependencies")) = false by
        simp [hc],
      stepDoc_false]
  · rw [reconcile_unusedDev, if_neg (by simp [hc])]
  · rw [reconcile_finalDoc,
      lookup_stepDoc_ne _ _ _ _ _ (by decide : ("dev-dependencies" : String) ≠ "build-dependencies"),
      show (check_dev filter && (fix && isTable doc "dev-dependencies")) = false by
        simp [hc],
      stepDoc_false,
      lookup_stepDoc_ne _ _ _ _ _
        (by decide : ("dev-dependencies" : String) ≠ "dependencies")]
  · rw [reconcile_unusedBuild, if_neg (by simp [hc])]
  · rw [reconcile_finalDoc,
      show (check_build filter && (fix && isTable doc "build-dependencies")) = false by
        simp [hc],
      stepDoc_false,
      lookup_stepDoc_ne _ _ _ _ _
        (by decide : ("build-dependencies" : String) ≠ "dev-dependencies"),
      lookup_stepDoc_ne _ _ _ _ _
        (by decide : ("build-dependencies" : String) ≠ "dependencies")]

/-- C7.  Frame of a fix run: the document the run ends with has the
same top-level names in the same order; every name outside the three
dependency tables resolves to its original item; a table-shaped
dependency table keeps exactly its entries whose key is not in that
kind's computed unused list (so keys outside the unused set keep their
original value, and nothing is added, renamed, or edited); a
non-table-shaped entry under a dependency-table name is untouched. -/
theorem dead_C7_frame (pkg : PackageInputs) (filter : FilterOptions)
    (doc : Document) (r : AnalyzeResult)
    (hm : pkg.manifest = Except.ok doc)
    (h : analyze_package pkg true filter = Except.ok r) :
    (r.finalDoc.map Prod.fst = doc.map Prod.fst) ∧
    (∀ n, n ∉ depTables → lookupItem r.finalDoc n = lookupItem doc n) ∧
    (∀ n es, n ∈ depTables → lookupItem doc n = some (Item.table es) →
      lookupItem r.finalDoc n =
        some (Item.table (es.filter (fun e => !((unusedFor r n).contains e.1))))) ∧
    (∀ n, n ∈ depTables → isTable doc n = false →
      lookupItem r.finalDoc n = lookupItem doc n) := by
  obtain ⟨used, doc', hu, hm', hrec⟩ := analyze_package_ok_elim pkg true filter r h
  rw [hm] at hm'
  injection hm' with h_eq
  subst h_eq
  subst hrec
  refine ⟨?_, ?_, ?_, ?_⟩
  · rw [reconcile_finalDoc, stepDoc_map_fst, stepDoc_map_fst, stepDoc_map_fst]
  · intro n hn
    have h1 : n ≠ "dependencies" := by intro he; subst he; exact hn (by decide)
    have h2 : n ≠ "dev-dependencies" := by intro he; subst he; exact hn (by decide)
    have h3 : n ≠ "build-dependencies" := by intro he; subst he; exact hn (by decide)
    rw [reconcile_finalDoc, lookup_stepDoc_ne _ _ _ _ _ h3,
      lookup_stepDoc_ne _ _ _ _ _ h2, lookup_stepDoc_ne _ _ _ _ _ h1]
  · intro n es hn htab
    have hn' : n = "dependencies" ∨ n = "dev-dependencies" ∨ n = "build-dependencies" := by
      simpa [depTables] using hn
    rcases hn' with rfl | rfl | rfl
    · have hT : isTable doc "dependencies" = true := by simp [isTable, htab]
      rw [reconcile_finalDoc,
        lookup_stepDoc_ne _ _ _ _ _
          (by decide : ("dependencies" : String) ≠ "build-dependencies"),
        lookup_stepDoc_ne _ _ _ _ _
          (by decide : ("dependencies" : String) ≠ "dev-dependencies"),
        lookup_stepDoc_table _ _ _ _ _ htab, hT]
      cases hcN : check_normal filter <;>
        simp [unusedFor, reconcile_unusedNormal, hcN]
    · have hT : isTable doc "dev-dependencies" = true := by simp [isTable, htab]
      have htab1 : lookupItem
          (stepDoc (check_normal filter && (true && isTable doc "dependencies"))
            "dependencies" (unusedOf used pkg.enumNormal) doc) "dev-dependencies" =
          some (Item.table es) := by
        rw [lookup_stepDoc_ne _ _ _ _ _
          (by decide : ("dev-dependencies" : String) ≠ "dependencies"), htab]
      rw [reconcile_finalDoc,
        lookup_stepDoc_ne _ _ _ _ _
          (by decide : ("dev-dependencies" : String) ≠ "build-dependencies"),
        lookup_stepDoc_table _ _ _ _ _ htab1, hT]
      cases hcD : check_dev filter <;>
        simp [unusedFor, reconcile_unusedDev, hcD]
    · have hT : isTable doc "build-dependencies" = true := by simp [isTable, htab]
      have htab2 : lookupItem
          (stepDoc (check_dev filter && (true && isTable doc "dev-dependencies"))
            "dev-dependencies" (unusedOf used pkg.enumDev)
            (stepDoc (check_normal filter && (true && isTable doc "dependencies"))
              "dependencies" (unusedOf used pkg.enumNormal) doc)) "build-dependencies" =
          some (Item.table es) := by
        rw [lookup_stepDoc_ne _ _ _ _ _
            (by decide : ("build-dependencies" : String) ≠ "dev-dependencies"),
          lookup_stepDoc_ne _ _ _ _ _
            (by decide : ("build-dependencies" : String) ≠ "dependencies"), htab]
      rw [reconcile_finalDoc, lookup_stepDoc_table _ _ _ _ _ htab2, hT]
      cases hcB : check_build filter <;>
        simp [unusedFor, reconcile_unusedBuild, hcB]
  · intro n hn hnt
    have hn' : n = "dependencies" ∨ n = "dev-dependencies" ∨ n = "build-dependencies" := by
      simpa [depTables] using hn
    rcases hn' with rfl | rfl | rfl
    · rw [reconcile_finalDoc,
        lookup_stepDoc_ne _ _ _ _ _
          (by decide : ("dependencies" : String) ≠ "build-dependencies"),
        lookup_stepDoc_ne _ _ _ _ _
          (by decide : ("dependencies" : String) ≠ "dev-dependencies"),
        show (check_normal filter && (true && isTable doc "dependencies")) = false by
          simp [hnt],
        stepDoc_false]
    · rw [reconcile_finalDoc,
        lookup_stepDoc_ne _ _ _ _ _
          (by decide : ("dev-dependencies" : String) ≠ "build-dependencies"),
        show (check_dev filter && (true && isTable doc "dev-dependencies")) = false by
          simp [hnt],
        stepDoc_false,
        lookup_stepDoc_ne _ _ _ _ _
          (by decide : ("dev-dependencies" : String) ≠ "dependencies")]
    · rw [reconcile_finalDoc,
        show (check_build filter && (true && isTable doc "build-dependencies")) = false by
          simp [hnt],
        stepDoc_false,
        lookup_stepDoc_ne _ _ _ _ _
          (by decide : ("build-dependencies" : String) ≠ "dev-dependencies"),
        lookup_stepDoc_ne _ _ _ _ _
          (by decide : ("build-dependencies" : String) ≠ "dependencies")]

/-- C8.  Every combination of the three filter flags leaves at least one
kind active, and with no flag set all three kinds are active
(`FilterOptions` fields in order: `only_dev`, `only_build`,
`only_regular`). -/
theorem dead_C8_active_nonempty :
    (∀ d b r : Bool,
      (check_normal ⟨d, b, r⟩ || check_dev ⟨d, b, r⟩ || check_build ⟨d, b, r⟩) = true) ∧
    (check_normal ⟨false, false, false⟩ = true ∧
      check_dev ⟨false, false, false⟩ = true ∧
      check_build ⟨false, false, false⟩ = true) := by
  exact ⟨by decide, by decide⟩

/-- C9.  In both check and fix mode, a manifest that cannot be read or
parsed aborts the package's analysis with that error, and the workspace
loop then aborts the whole run: no later package is analyzed. -/
theorem dead_C9_manifest_fatal (pkg : PackageInputs) (fix : Bool)
    (filter : FilterOptions) (used : List String) (e : String)
    (hu : computeUsed pkg = Except.ok used)
    (hm : pkg.manifest = Except.error e) :
    analyze_package pkg fix filter = Except.error e ∧
    ∀ rest, run_workspace fix filter (pkg :: rest) = Except.error e := by
  have ha : analyze_package pkg fix filter = Except.error e := by
    unfold analyze_package
    rw [hu, hm]
  refine ⟨ha, fun rest => ?_⟩
  simp [run_workspace, ha]

/-- C10.  When at least two of the filter flags are set, the active
kinds are exactly the union of the flagged kinds (`FilterOptions`
fields in order: `only_dev`, `only_build`, `only_regular`). -/
theorem dead_C10_multi_flag (d b r : Bool)
    (h : ((d && b) || (d && r) || (b && r)) = true) :
    check_normal ⟨d, b, r⟩ = r ∧ check_dev ⟨d, b, r⟩ = d ∧ check_build ⟨d, b, r⟩ = b := by
  revert h
  revert d b r
  decide

/-- Witness for C10 at `only_dev` and `only_build` both set. -/
theorem dead_C10_witness :
    check_normal ⟨true, true, false⟩ = false ∧
    check_dev ⟨true, true, false⟩ = true ∧
    check_build ⟨true, true, false⟩ = true :=
  dead_C10_multi_flag true true false (by decide)

/-- Witness for C1: `serde` appears in `pkgW`'s sources, lands in the
used set, and is not reported under any kind. -/
theorem dead_C1_witness :
    ("serde" ∈ usedW) ∧
    ("serde" ∉ rWcheck.unusedNormal ∧ "serde" ∉ rWcheck.unusedDev ∧
      "serde" ∉ rWcheck.unusedBuild) := by
  have hpath : (["serde", "Value"] : List String) ∈ forestPaths forestW :=
    show (["serde", "Value"] : List String) ∈ [["serde", "Value"]] from
      List.mem_singleton.mpr rfl
  have happ : appearsInPackage pkgW "serde" :=
    Or.inl ⟨[DirEntry.rustFile (Except.ok (some forestW))], forestW, ["serde", "Value"],
      rfl, List.mem_singleton.mpr rfl, hpath, rfl⟩
  have h := dead_C1_soundness pkgW "serde" happ
  exact ⟨h.1 usedW rfl, h.2 false filterAll rWcheck rfl⟩

/-- Witness for C2 at `pkgW`: `tokio` is reported unused for the
regular kind iff it is declared regular and not used. -/
theorem dead_C2_witness :
    "tokio" ∈ rWcheck.unusedNormal ↔
      ("tokio" ∈ get_dependency_names pkgW.dependencies DependencyKind.normal ∧
        "tokio" ∉ usedW) :=
  (dead_C2_exact_difference pkgW false filterAll usedW rWcheck (List.Perm.refl _)
    (List.Perm.refl _) (List.Perm.refl _) rfl rfl).1 rfl "tokio"

/-- C3 counterexample: one unreadable `src/` file aborts the whole
package analysis, where the claim says it is skipped. -/
theorem dead_C3_counterexample :
    pkgC3.srcEntries = some [DirEntry.rustFile (Except.error "permission denied")] ∧
    analyze_package pkgC3 false filterAll = Except.error "permission denied" :=
  ⟨rfl, rfl⟩

/-- Witness for the amended C3 at concrete scans. -/
theorem dead_C3_witness :
    scan_rust_files preW = Except.ok ["serde"] ∧
    (scan_rust_files (preW ++ DirEntry.rustFile (Except.ok none) :: postW) =
      scan_rust_files (preW ++ postW)) ∧
    (scan_rust_files (preW ++ DirEntry.entryError :: postW) =
      scan_rust_files (preW ++ postW)) ∧
    (scan_rust_files (preW ++ DirEntry.nonRust :: postW) =
      scan_rust_files (preW ++ postW)) ∧
    (scan_rust_files (preW ++ DirEntry.rustFile (Except.error "io") :: postW) =
      Except.error "io") := by
  have h := dead_C3_amended preW postW "io" ["serde"]
  exact ⟨rfl, h.1, h.2.1, h.2.2.1, h.2.2.2 rfl⟩

/-- C4 counterexample: in fix mode, an unused declared name whose key is
absent from its table still triggers the write (`changed = true` is set
by the mere table match), with no entry removed — the final document
equals the original one while `written` is `true`. -/
theorem dead_C4_counterexample :
    pkgC4.manifest = Except.ok docC4 ∧ rC4.written = true ∧ rC4.finalDoc = docC4 ∧
    analyze_package pkgC4 true filterAll = Except.ok rC4 :=
  ⟨rfl, rfl, rfl, rfl⟩

/-- Witness for the amended C4 at the fix run on `pkgW`. -/
theorem dead_C4_witness :
    (rWfix.written = (true &&
      ((isTable docW "dependencies" && !(rWfix.unusedNormal.isEmpty)) ||
        (isTable docW "dev-dependencies" && !(rWfix.unusedDev.isEmpty)) ||
        (isTable docW "build-dependencies" && !(rWfix.unusedBuild.isEmpty))))) ∧
    (rWfix.written = false → rWfix.finalDoc = docW) :=
  dead_C4_amended pkgW true filterAll docW rWfix rfl rfl

/-- C5 counterexample: a legitimate `HashSet` iteration order makes the
report come out as `["beta", "alpha"]`, not the declaration order
`["alpha", "beta"]`. -/
theorem dead_C5_counterexample :
    pkgC5.enumNormal.Perm
      (get_dependency_names pkgC5.dependencies DependencyKind.normal).dedup ∧
    analyze_package pkgC5 false filterAll = Except.ok rC5 ∧
    rC5.unusedNormal ≠ get_dependency_names pkgC5.dependencies DependencyKind.normal := by
  refine ⟨?_, rfl, by decide⟩
  exact List.Perm.swap "alpha" "beta" []

/-- Witness for the amended C5 at `pkgW`. -/
theorem dead_C5_witness :
    rWcheck.unusedNormal = unusedOf usedW pkgW.enumNormal ∧
    (rWfix.unusedNormal = rWcheck.unusedNormal ∧ rWfix.unusedDev = rWcheck.unusedDev ∧
      rWfix.unusedBuild = rWcheck.unusedBuild) := by
  have h := dead_C5_amended pkgW false filterAll usedW rWcheck rfl rfl
  exact ⟨h.1 rfl, h.2.2.2 true rWfix rfl⟩

/-- Witness for C6: fixing `pkgW` with only the development kind leaves
the regular and build kinds unreported and their tables untouched. -/
theorem dead_C6_witness :
    (rWdev.unusedNormal = [] ∧
      lookupItem rWdev.finalDoc "dependencies" = lookupItem docW "dependencies") ∧
    (rWdev.unusedBuild = [] ∧
      lookupItem rWdev.finalDoc "build-dependencies" =
        lookupItem docW "build-dependencies") := by
  have h := dead_C6_kind_isolation pkgW true filterDev docW rWdev (Or.inl rfl) rfl rfl
  exact ⟨h.1 rfl, h.2.2 rfl⟩

/-- Witness for C7 at the fix run on `pkgW`. -/
theorem dead_C7_witness :
    rWfix.finalDoc.map Prod.fst = docW.map Prod.fst ∧
    lookupItem rWfix.finalDoc "package" = lookupItem docW "package" ∧
    lookupItem rWfix.finalDoc "dependencies" =
      some (Item.table (([("serde", "1"), ("tokio", "1")] : TableEntries).filter
        (fun e => !((unusedFor rWfix "dependencies").contains e.1)))) := by
  have h := dead_C7_frame pkgW filterAll docW rWfix rfl rfl
  exact ⟨h.1, h.2.1 "package" (by decide),
    h.2.2.1 "dependencies" [("serde", "1"), ("tokio", "1")] (by decide) rfl⟩

/-- Witness for C9: a bad manifest aborts the package and the whole
workspace run, with the next package never analyzed. -/
theorem dead_C9_witness :
    analyze_package pkgC9 false filterAll = Except.error "bad toml" ∧
    run_workspace false filterAll [pkgC9, pkgW] = Except.error "bad toml" := by
  have h := dead_C9_manifest_fatal pkgC9 false filterAll [] "bad toml" rfl rfl
  exact ⟨h.1, h.2 [pkgW]⟩

end CargoDead

